import Mathlib

/-!
# Verification of the midnight-tracker booking extraction and merge engine

Shallow embedding of the booking-sync scripts (the periodic sync script and
the one-off backfill script `.github/scripts/backfill-bookings.js`, whose
extraction/merge logic is duplicated near-verbatim).

Modelling conventions:
* JavaScript `Date` values (always at day granularity in this code) are
  modelled as `Nat` day counts since 1970-01-01; `fmtDate` converts a day
  count to the `YYYY-MM-DD` string exactly as the scripts' `fmtDate` does,
  and subtracting `86400000` milliseconds is `- 1` on the day count.
* JavaScript strings are Lean `String`s; falsiness of a string is equality
  with `""`; `String.prototype.includes` is `strContains`, `slice(0, n)` is
  `strTake`, `toUpperCase` is `upperStr` (ASCII, which covers all the
  vocabulary the scripts match on).
* The regular-expression tests and scanners that the claims depend on
  (`extractFlights`, the car-rental exclusion test, the flight/hotel keyword
  tests) are implemented as faithful character-level scanners, including
  JavaScript `\b` word-boundary and `lastIndex` semantics.  The remaining
  free-text extractors (`extractDestination`, `extractHotelName`,
  `extractCity`, the three date-shape scanners), whose internals no claim
  depends on, are passed to the item processors as already-computed inputs.
-/

namespace MidnightTracker

/-! ## Character classes (JavaScript regex semantics, ASCII) -/

/-- JavaScript `\w` word character: `[A-Za-z0-9_]`. -/
def wordChar (c : Char) : Bool := c.isAlpha || c.isDigit || c == '_'

/-- JavaScript `\s` whitespace, restricted to the forms occurring in
subjects/snippets. -/
def isSpaceCh (c : Char) : Bool := c == ' ' || c == '\t' || c == '\n' || c == '\r'

/-- `[A-Z]`. -/
def isUpperAZ (c : Char) : Bool := 'A' ≤ c && c ≤ 'Z'

/-- `\d`. -/
def isDigitCh (c : Char) : Bool := '0' ≤ c && c ≤ '9'

/-! ## List-of-characters string primitives -/

/-- `startsWithL l p`: `p` is a prefix of `l` (character-wise). -/
def startsWithL : List Char → List Char → Bool
  | _, [] => true
  | [], _ :: _ => false
  | c :: cs, d :: ds => c == d && startsWithL cs ds

/-- `containsL l p`: `p` occurs as a contiguous substring of `l`
(JavaScript `String.prototype.includes`). -/
def containsL : List Char → List Char → Bool
  | [], p => startsWithL [] p
  | l@(_ :: cs), p => startsWithL l p || containsL cs p

/-- Number of start positions at which `p` occurs in `l`. -/
def countOccurL : List Char → List Char → Nat
  | [], p => if startsWithL [] p then 1 else 0
  | l@(_ :: cs), p => (if startsWithL l p then 1 else 0) + countOccurL cs p

/-- JavaScript `includes` on `String`. -/
def strContains (s pat : String) : Bool := containsL s.data pat.data

/-- JavaScript `slice(0, n)` on `String`. -/
def strTake (s : String) (n : Nat) : String := String.mk (s.data.take n)

/-- ASCII `toUpperCase`. -/
def upperStr (s : String) : String := String.mk (s.data.map Char.toUpper)

/-- Lexicographic `≤` on character lists (JavaScript string comparison for
the ASCII date strings it is applied to). -/
def strLeL : List Char → List Char → Bool
  | [], _ => true
  | _ :: _, [] => false
  | a :: as, b :: bs => if a = b then strLeL as bs else decide (a < b)

/-- JavaScript `a >= b` on strings. -/
def strGe (a b : String) : Bool := strLeL b.data a.data

/-! ## Tokenisation: JavaScript `split(/[,\s]+/).filter(Boolean)` and `join(', ')` -/

/-- A flight-list separator character (`[,\s]`). -/
def isSep (c : Char) : Bool := c == ',' || isSpaceCh c

/-- Raw split at every separator character (so separator runs and edges
produce empty fragments, exactly as `split(/[,\s]+/)` produces empty strings
at the string's edges). -/
def splitRaw : List Char → List (List Char)
  | [] => [[]]
  | c :: cs =>
    match splitRaw cs with
    | [] => [[c]]
    | t :: ts => if isSep c then [] :: t :: ts else (c :: t) :: ts

/-- The composition of the split with `filter(Boolean)`, which drops the
empty fragments: the non-empty separator-free tokens, in order. -/
def splitToks (l : List Char) : List (List Char) :=
  (splitRaw l).filter (fun t => !t.isEmpty)

/-- `Array.prototype.join(', ')` over tokens. -/
def joinToks : List (List Char) → List Char
  | [] => []
  | [t] => t
  | t :: ts => t ++ ',' :: ' ' :: joinToks ts

/-- First-seen-order deduplication with an accumulator of already-seen
elements: the semantics of iterating a JavaScript `Set`. -/
def dedupSeen {α : Type} [DecidableEq α] (seen : List α) : List α → List α
  | [] => []
  | x :: xs => if x ∈ seen then dedupSeen seen xs else x :: dedupSeen (x :: seen) xs

/-- `[...new Set(l)]`. -/
def dedupFirstL {α : Type} [DecidableEq α] (l : List α) : List α := dedupSeen [] l

/-! ## Dates

A JavaScript `Date` at day granularity is a day count since 1970-01-01.
`civilFromDays`/`daysFromCivil` are the standard civil-calendar conversions
(valid for all days from the epoch onward, which covers the 2025-2028 window
the scripts operate in). -/

/-- Day count since 1970-01-01 to `(year, month, day)`. -/
def civilFromDays (z : Nat) : Nat × Nat × Nat :=
  let z' := z + 719468
  let era := z' / 146097
  let doe := z' % 146097
  let yoe := (doe - doe / 1460 + doe / 36524 - doe / 146096) / 365
  let y := yoe + era * 400
  let doy := doe - (365 * yoe + yoe / 4 - yoe / 100)
  let mp := (5 * doy + 2) / 153
  let d := doy - (153 * mp + 2) / 5 + 1
  let m := if mp < 10 then mp + 3 else mp - 9
  (if m ≤ 2 then y + 1 else y, m, d)

/-- `(year, month, day)` to day count since 1970-01-01. -/
def daysFromCivil (y m d : Nat) : Nat :=
  let y' := if m ≤ 2 then y - 1 else y
  let era := y' / 400
  let yoe := y' % 400
  let mp := (m + 9) % 12
  let doy := (153 * mp + 2) / 5 + d - 1
  let doe := yoe * 365 + yoe / 4 - yoe / 100 + doy
  era * 146097 + doe - 719468

/-- Zero-padding to two digits: `String(n).padStart(2, '0')`. -/
def pad2 (n : Nat) : String := if n < 10 then "0" ++ toString n else toString n

/-- The scripts' `fmtDate`: `YYYY-MM-DD` via local date components.  The
model works on day counts, so the component extraction is `civilFromDays`. -/
def fmtDate (z : Nat) : String :=
  let c := civilFromDays z
  toString c.1 ++ "-" ++ pad2 c.2.1 ++ "-" ++ pad2 c.2.2

/-- The scripts' `dateRange(start, end)` loop: push `fmtDate(d)` while
`d <= e`, stepping one day at a time.  `dateRangeAux fuel d e` runs the loop
body with enough fuel to reach `e`. -/
def dateRangeAux : Nat → Nat → Nat → List String
  | 0, _, _ => []
  | fuel + 1, d, e => if d ≤ e then fmtDate d :: dateRangeAux fuel (d + 1) e else []

/-- All dates between two dates, inclusive (empty when `start > e`). -/
def dateRange (start e : Nat) : List String := dateRangeAux (e + 1 - start) start e

/-- The hotel-night expansion used by both scripts:
`dateRange(checkIn, new Date(checkOut.getTime() - 86400000))`, i.e. the days
from check-in up to the day before check-out. -/
def expandNights (checkIn checkOut : Nat) : List String :=
  dateRange checkIn (checkOut - 1)

/-! ## Data model -/

/-- Booking kind. -/
inductive BookingType where
  | flight
  | hotel
deriving DecidableEq, Repr

/-- The ephemeral `Booking` object both scripts push while processing raw
items.  `flights` is the already comma-joined string (`flights.join(', ')`),
exactly as in the source. -/
structure Booking where
  type : BookingType
  date : String
  flights : String
  city : String
  country : String
  place : String
  source : String
  raw : String
deriving DecidableEq, Repr

/-- A persistent per-day location record.  JavaScript-absent string fields
are `""`, absent booleans are `false`; `lat`/`lon` are optional numbers
(`none` when absent). -/
structure LocationRecord where
  place : String
  city : String
  country : String
  flights : String
  notes : String
  lat : Option Int
  lon : Option Int
  working : Bool
  autoGps : Bool
  autoBooking : Bool
  bookingSource : String
  countryConflict : Option String
deriving DecidableEq, Repr

/-- JavaScript `a || b` for strings (first non-empty wins). -/
def jsOr (a b : String) : String := if a = "" then b else a

/-- JavaScript truthiness of an optional number (`0` is falsy). -/
def numTruthy : Option Int → Bool
  | none => false
  | some v => v != 0

/-! ## The merge engine (`updateFirebase` in both scripts) -/

/-- `mergeFlights(existing, newFlights)`: split both comma/whitespace
separated strings, drop empties, union preserving first-seen order, re-join
with `', '`. -/
def mergeFlights (existing newFlights : String) : String :=
  if existing = "" ∧ newFlights = "" then ""
  else if existing = "" then newFlights
  else if newFlights = "" then existing
  else String.mk (joinToks (dedupFirstL (splitToks existing.data ++ splitToks newFlights.data)))

/-- The audit line `"{source}: {raw.slice(0, 120)}"` built for a booking. -/
def sourceInfo (b : Booking) : String := b.source ++ ": " ++ strTake b.raw 120

/-- The `combinedSource` computation: keep the existing audit trail when it
already contains the new line, otherwise append with `' | '`; start fresh
when there is no existing trail. -/
def combineSource (existingSource info : String) : String :=
  if existingSource = "" then info
  else if strContains existingSource info then existingSource
  else existingSource ++ " | " ++ info

/-- The merged `entry` object built for one booking against the current
record (or no record), lines 501-530 of the sync script. -/
def mergeEntry (current : Option LocationRecord) (b : Booking) : LocationRecord :=
  let existingSource := match current with
    | some c => c.bookingSource
    | none => ""
  let combinedSource := combineSource existingSource (sourceInfo b)
  { place := jsOr (match current with | some c => c.place | none => "") b.place
    city := jsOr (match current with | some c => c.city | none => "") b.city
    country := jsOr (match current with | some c => c.country | none => "") b.country
    flights := mergeFlights (match current with | some c => c.flights | none => "") b.flights
    notes := match current with | some c => c.notes | none => ""
    lat := match current with
      | some c => if numTruthy c.lat then c.lat else none
      | none => none
    lon := match current with
      | some c => if numTruthy c.lon then c.lon else none
      | none => none
    working := match current with | some c => c.working | none => false
    autoGps := match current with | some c => c.autoGps | none => false
    autoBooking := true
    bookingSource := combinedSource
    countryConflict := match current with
      | some c =>
        if c.autoGps ∧ c.country ≠ "" ∧ b.country ≠ "" ∧ c.country ≠ b.country
        then some ("GPS says " ++ c.country ++ ", booking says " ++ b.country)
        else none
      | none => none }

/-- The manual-lock test: an existing record with a city set and neither
automation flag. -/
def isLocked : Option LocationRecord → Bool
  | none => false
  | some c => c.city != "" && !c.autoGps && !c.autoBooking

/-- The `hasNew` no-op-suppression test, verbatim from the source. -/
def hasNew (current : Option LocationRecord) (entry : LocationRecord) : Bool :=
  match current with
  | none => true
  | some c =>
    (c.place == "" && entry.place != "") ||
    (c.city == "" && entry.city != "") ||
    (c.flights == "" && entry.flights != "") ||
    (entry.flights != "" && entry.flights != c.flights) ||
    (c.bookingSource == "" && entry.bookingSource != "")

/-- One booking against one (possibly absent) current record: the update
the engine emits for that booking, if any. -/
def reconcileOne (current : Option LocationRecord) (b : Booking) : Option LocationRecord :=
  if isLocked current then none
  else
    let entry := mergeEntry current b
    if hasNew current entry then some entry else none

/-! ## The record store and the full reconcile run -/

/-- Association-list lookup by date key. -/
def lookupKey (m : List (String × LocationRecord)) (k : String) : Option LocationRecord :=
  match m with
  | [] => none
  | (k', v) :: rest => if k' = k then some v else lookupKey rest k

/-- JavaScript object-key assignment `m[k] = v`: replace in place or append. -/
def setKey (m : List (String × LocationRecord)) (k : String) (v : LocationRecord) :
    List (String × LocationRecord) :=
  match m with
  | [] => [(k, v)]
  | (k', v') :: rest => if k' = k then (k, v) :: rest else (k', v') :: setKey rest k v

/-- Per-run counters. -/
structure SyncCounts where
  newCount : Nat
  mergedCount : Nat
  skippedCount : Nat
deriving DecidableEq, Repr

/-- One iteration of the `for (const booking of bookings)` loop in
`updateFirebase`: note that `current` is always looked up in the snapshot
`existing`, never in the accumulating `updates`. -/
def updateStep (existing : List (String × LocationRecord))
    (acc : List (String × LocationRecord) × SyncCounts) (b : Booking) :
    List (String × LocationRecord) × SyncCounts :=
  let current := lookupKey existing b.date
  if isLocked current then
    (acc.1, { acc.2 with skippedCount := acc.2.skippedCount + 1 })
  else
    let entry := mergeEntry current b
    if hasNew current entry then
      (setKey acc.1 b.date entry,
        match current with
        | none => { acc.2 with newCount := acc.2.newCount + 1 }
        | some _ => { acc.2 with mergedCount := acc.2.mergedCount + 1 })
    else
      (acc.1, { acc.2 with skippedCount := acc.2.skippedCount + 1 })

/-- The pure core of `updateFirebase`: fold the loop over the booking list,
returning the update set and the counters. -/
def updateFirebase (existing : List (String × LocationRecord)) (bookings : List Booking) :
    List (String × LocationRecord) × SyncCounts :=
  bookings.foldl (updateStep existing) ([], ⟨0, 0, 0⟩)

/-- Applying the produced update set to the store
(`db.ref().update(updates)`). -/
def applyUpdates (store updates : List (String × LocationRecord)) :
    List (String × LocationRecord) :=
  updates.foldl (fun s kv => setKey s kv.1 kv.2) store

/-! ### Monotonicity of a single merge -/

/-- "The result only ever gains information relative to `r₀`": non-empty
place/city/country are preserved exactly, every stored flight token is still
present, the prior audit trail is still contained, and `autoBooking` never
resets. -/
def MonoRel (r₀ r₁ : LocationRecord) : Prop :=
  (r₀.place ≠ "" → r₁.place = r₀.place) ∧
  (r₀.city ≠ "" → r₁.city = r₀.city) ∧
  (r₀.country ≠ "" → r₁.country = r₀.country) ∧
  (∀ t ∈ splitToks r₀.flights.data, t ∈ splitToks r₁.flights.data) ∧
  strContains r₁.bookingSource r₀.bookingSource = true ∧
  (r₀.autoBooking = true → r₁.autoBooking = true)

/-! ## Regex scanners

The classification regexes are alternations of literals (with occasional
`\s*`, `.?`, `.*`, `-?`, `s?`, `\d`) behind a leading `\b`.  They are run
with the `i` flag; the model uppercases the text and matches uppercase
literals, which is equivalent for ASCII.  Matching is continuation-passing:
each combinator consumes input and hands the rest to `k`, with the same
backtracking the regex engine performs. -/

/-- Match a literal, then continue. -/
def litThen : List Char → List Char → (List Char → Bool) → Bool
  | [], cs, k => k cs
  | l :: ls, c :: cs, k => l == c && litThen ls cs k
  | _ :: _, [], _ => false

/-- Literal given as a string. -/
def strLit (s : String) (cs : List Char) (k : List Char → Bool) : Bool :=
  litThen s.data cs k

/-- `.?`: optionally consume one non-newline character (tries both ways). -/
def anyOptThen (cs : List Char) (k : List Char → Bool) : Bool :=
  k cs ||
    (match cs with
     | c :: cs2 => c != '\n' && k cs2
     | [] => false)

/-- `.*`: consume any number of non-newline characters (tries every split). -/
def anyStarThen : List Char → (List Char → Bool) → Bool
  | [], k => k []
  | c :: cs, k => k (c :: cs) || (c != '\n' && anyStarThen cs k)

/-- `\s*` with backtracking. -/
def spacesThen : List Char → (List Char → Bool) → Bool
  | [], k => k []
  | c :: cs, k => k (c :: cs) || (isSpaceCh c && spacesThen cs k)

/-- `x?` for a single literal character. -/
def litOptThen (ch : Char) (cs : List Char) (k : List Char → Bool) : Bool :=
  k cs ||
    (match cs with
     | c :: cs2 => c == ch && k cs2
     | [] => false)

/-- `\d`: one digit, then done (used as a trailing test). -/
def digitEnd : List Char → Bool
  | c :: _ => isDigitCh c
  | [] => false

/-- Always-true continuation (end of the pattern). -/
def litEnd : List Char → Bool := fun _ => true

/-- Run an at-position alternative at every position that is a `\b` word
boundary (every alternative starts with a word character, so the boundary
holds exactly when the previous character is a non-word one). -/
def scanAlt (alt : List Char → Bool) : Bool → List Char → Bool
  | _, [] => false
  | prevWord, c :: cs => (!prevWord && alt (c :: cs)) || scanAlt alt (wordChar c) cs

/-- One position of the car-rental exclusion regex
`/\b(car\s*rental|hertz|avis|europcar|sixt|enterprise|rent.?a.?car|pick.?up.*drop.?off|vehicle\s*collect)/i`. -/
def carRentalAt (cs : List Char) : Bool :=
  strLit "CAR" cs (fun r => spacesThen r (fun r2 => strLit "RENTAL" r2 litEnd)) ||
  strLit "HERTZ" cs litEnd ||
  strLit "AVIS" cs litEnd ||
  strLit "EUROPCAR" cs litEnd ||
  strLit "SIXT" cs litEnd ||
  strLit "ENTERPRISE" cs litEnd ||
  strLit "RENT" cs (fun r => anyOptThen r (fun r2 => strLit "A" r2
    (fun r3 => anyOptThen r3 (fun r4 => strLit "CAR" r4 litEnd)))) ||
  strLit "PICK" cs (fun r => anyOptThen r (fun r2 => strLit "UP" r2
    (fun r3 => anyStarThen r3 (fun r4 => strLit "DROP" r4
      (fun r5 => anyOptThen r5 (fun r6 => strLit "OFF" r6 litEnd)))))) ||
  strLit "VEHICLE" cs (fun r => spacesThen r (fun r2 => strLit "COLLECT" r2 litEnd))

/-- The car-rental exclusion test applied to an item's combined text. -/
def carRentalMatch (text : String) : Bool :=
  scanAlt carRentalAt false (upperStr text).data

/-- One position of the calendar flight-signal regex
`/\b(flight|fly|depart|arrive|airport|boarding|BA\d|EK\d|LH\d|AF\d|AZ\d|FR\d|U2\d|QR\d|EY\d|SQ\d|CX\d|TK\d)/i`. -/
def calFlightAt (cs : List Char) : Bool :=
  strLit "FLIGHT" cs litEnd || strLit "FLY" cs litEnd || strLit "DEPART" cs litEnd ||
  strLit "ARRIVE" cs litEnd || strLit "AIRPORT" cs litEnd || strLit "BOARDING" cs litEnd ||
  strLit "BA" cs digitEnd || strLit "EK" cs digitEnd || strLit "LH" cs digitEnd ||
  strLit "AF" cs digitEnd || strLit "AZ" cs digitEnd || strLit "FR" cs digitEnd ||
  strLit "U2" cs digitEnd || strLit "QR" cs digitEnd || strLit "EY" cs digitEnd ||
  strLit "SQ" cs digitEnd || strLit "CX" cs digitEnd || strLit "TK" cs digitEnd

def calFlightMatch (text : String) : Bool :=
  scanAlt calFlightAt false (upperStr text).data

/-- One position of the calendar hotel-signal regex
`/\b(hotel|check.?in|check.?out|booking|reservation|stay|accommodation|airbnb)/i`. -/
def calHotelAt (cs : List Char) : Bool :=
  strLit "HOTEL" cs litEnd ||
  strLit "CHECK" cs (fun r => anyOptThen r (fun r2 => strLit "IN" r2 litEnd)) ||
  strLit "CHECK" cs (fun r => anyOptThen r (fun r2 => strLit "OUT" r2 litEnd)) ||
  strLit "BOOKING" cs litEnd || strLit "RESERVATION" cs litEnd || strLit "STAY" cs litEnd ||
  strLit "ACCOMMODATION" cs litEnd || strLit "AIRBNB" cs litEnd

def calHotelMatch (text : String) : Bool :=
  scanAlt calHotelAt false (upperStr text).data

/-- One position of the email flight-signal regex
`/\b(flight|itinerary|boarding|e-?ticket|airline)/i`. -/
def emailFlightAt (cs : List Char) : Bool :=
  strLit "FLIGHT" cs litEnd || strLit "ITINERARY" cs litEnd || strLit "BOARDING" cs litEnd ||
  strLit "E" cs (fun r => litOptThen '-' r (fun r2 => strLit "TICKET" r2 litEnd)) ||
  strLit "AIRLINE" cs litEnd

def emailFlightMatch (text : String) : Bool :=
  scanAlt emailFlightAt false (upperStr text).data

/-- One position of the email hotel-signal regex
`/\b(hotel|reservation|check.?in|booking|stay|accommodation|airbnb|nights?)/i`
(the trailing `s?` is vacuous for a match test). -/
def emailHotelAt (cs : List Char) : Bool :=
  strLit "HOTEL" cs litEnd || strLit "RESERVATION" cs litEnd ||
  strLit "CHECK" cs (fun r => anyOptThen r (fun r2 => strLit "IN" r2 litEnd)) ||
  strLit "BOOKING" cs litEnd || strLit "STAY" cs litEnd ||
  strLit "ACCOMMODATION" cs litEnd || strLit "AIRBNB" cs litEnd ||
  strLit "NIGHT" cs litEnd

def emailHotelMatch (text : String) : Bool :=
  scanAlt emailHotelAt false (upperStr text).data

/-! ## `extractFlights` -/

/-- Attempt the pattern `\b([A-Z]{2})\s*(\d{1,4})\b` at the current position
(the leading boundary is handled by the caller).  Greedy digits with the
trailing `\b` mean the whole digit run must have length 1-4; returns the
captured code and the rest of the input. -/
def tryFlightAt (cs : List Char) : Option (List Char × List Char) :=
  match cs with
  | c1 :: c2 :: rest =>
    if isUpperAZ c1 && isUpperAZ c2 then
      let afterSp := rest.dropWhile isSpaceCh
      let digits := afterSp.takeWhile isDigitCh
      let rest2 := afterSp.drop digits.length
      if decide (1 ≤ digits.length) && decide (digits.length ≤ 4) &&
          (match rest2 with
           | [] => true
           | r :: _ => !wordChar r) then
        some (c1 :: c2 :: digits, rest2)
      else none
    else none
  | _ => none

/-- The `while ((m = pattern.exec(text)) !== null)` loop: scan left to
right, restarting after each match (`lastIndex` semantics); `prevWord`
tracks the character before the current position, for `\b`. -/
def scanFlights : Nat → Bool → List Char → List (List Char)
  | 0, _, _ => []
  | _ + 1, _, [] => []
  | fuel + 1, prevWord, c :: cs =>
    if !prevWord then
      match tryFlightAt (c :: cs) with
      | some (code, rest) => code :: scanFlights fuel true rest
      | none => scanFlights fuel (wordChar c) cs
    else scanFlights fuel (wordChar c) cs

/-- `extractFlights(text)`: all flight-designator matches, deduplicated in
first-seen order (`[...new Set(flights)]`). -/
def extractFlights (text : String) : List String :=
  if text = "" then []
  else (dedupFirstL (scanFlights (text.data.length + 1) false text.data)).map
    (fun t => String.mk t)

/-- `flights.join(', ')`. -/
def joinComma (l : List String) : String := String.mk (joinToks (l.map String.data))

/-! ## Item processors

The per-item bodies of `processCalendar` and `processEmailsFromFolder`.
The free-text extractors whose internals no claim touches are supplied as
already-computed inputs: `dest` is `extractDestination(allTextUpper)` (a
resolved `{city, country}` or `null`), `extractedCity` is
`extractCity(allText)`, `hotelName` is `extractHotelName(allText)`, and
`extractedDates` is the list of in-range day counts collected by the date
regexes (before sorting, which the processors do themselves). -/

/-- `dest?.city || x`. -/
def destCityOr (dest : Option (String × String)) (x : String) : String :=
  match dest with
  | some p => jsOr p.1 x
  | none => x

/-- `dest?.country || ''`. -/
def destCountry (dest : Option (String × String)) : String :=
  match dest with
  | some p => p.2
  | none => ""

/-- `extractCity(text) || ''` etc. -/
def optOr (o : Option String) (dflt : String) : String :=
  match o with
  | some s => jsOr s dflt
  | none => dflt

/-- Insertion into a sorted list, for the `sort((a, b) => a - b)` call. -/
def insertSorted (x : Nat) : List Nat → List Nat
  | [] => [x]
  | y :: ys => if x ≤ y then x :: y :: ys else y :: insertSorted x ys

/-- Ascending sort of the extracted dates. -/
def sortDates : List Nat → List Nat
  | [] => []
  | x :: xs => insertSorted x (sortDates xs)

/-- Start of the UK tax year used by the backfill script. -/
def TAX_YEAR_START : String := "2025-04-06"

/-- The loop body of the periodic sync script's `processCalendar` for one
event.  `startD`/`endD` are the parsed event start/end days (`none` when
unparseable). -/
def processCalendarEvent (subject body location : String)
    (hotelName extractedCity : Option String) (dest : Option (String × String))
    (startD endD : Option Nat) : List Booking :=
  let allText := subject ++ " " ++ body ++ " " ++ location
  let allTextUpper := upperStr allText
  if carRentalMatch allText then []
  else
    let isFlight := calFlightMatch allText
    let isHotel := calHotelMatch allText
    if !isFlight && !isHotel then []
    else
      match startD with
      | none => []
      | some sd =>
        (if isFlight then
          [{ type := BookingType.flight
             date := fmtDate sd
             flights := joinComma (extractFlights allTextUpper)
             city := destCityOr dest (optOr extractedCity "")
             country := destCountry dest
             place := ""
             source := "calendar"
             raw := subject }]
         else []) ++
        (if isHotel then
          match endD with
          | some ed =>
            (dateRange sd (ed - 1)).map (fun ds =>
              { type := BookingType.hotel
                date := ds
                flights := ""
                city := jsOr (optOr extractedCity "") location
                country := ""
                place := optOr hotelName ""
                source := "calendar"
                raw := subject })
          | none => []
         else [])

/-- The `if (isFlight && extractedDates.length > 0)` push of both email
processors: one flight booking dated at the earliest date. -/
def emailFlightPart (isFlight : Bool) (dates : List Nat)
    (flightsStr city country subject : String) : List Booking :=
  if isFlight then
    match dates with
    | [] => []
    | d0 :: _ =>
      [{ type := BookingType.flight
         date := fmtDate d0
         flights := flightsStr
         city := city
         country := country
         place := ""
         source := "email"
         raw := subject }]
  else []

/-- The night expansion of the sync script's email hotel branch: it fires
only with at least two dates (`extractedDates.length >= 2`), using the first
as check-in and the last as check-out. -/
def emailHotelNightsSync (dates : List Nat) : List String :=
  match dates with
  | d0 :: d1 :: rest => dateRange d0 ((d1 :: rest).getLastD d1 - 1)
  | _ => []

/-- The night expansion of the backfill script's email hotel branch: it
fires with at least one date; with exactly one date `checkOut = checkIn + 1`
(single night assumed); nights are filtered to the tax year. -/
def emailHotelNightsBackfill (validDates : List Nat) : List String :=
  match validDates with
  | [] => []
  | d0 :: rest =>
    let checkOut := if rest.length + 1 > 1 then (d0 :: rest).getLastD d0 else d0 + 1
    (dateRange d0 (checkOut - 1)).filter (fun s => strGe s TAX_YEAR_START)

/-- One hotel booking per night. -/
def emailHotelPart (isHotel : Bool) (nights : List String)
    (city place subject : String) : List Booking :=
  if isHotel then
    nights.map (fun ds =>
      { type := BookingType.hotel
        date := ds
        flights := ""
        city := city
        country := ""
        place := place
        source := "email"
        raw := subject })
  else []

/-- The loop body of the periodic sync script's `processEmailsFromFolder`
for one message: note the hotel branch requires at least two extracted
dates. -/
def processEmailMessageSync (folderType subject body : String)
    (hotelName extractedCity : Option String) (dest : Option (String × String))
    (extractedDates : List Nat) : List Booking :=
  let allText := subject ++ " " ++ body
  let allTextUpper := upperStr allText
  if carRentalMatch allText then []
  else
    let isFlight := folderType == "flight" || emailFlightMatch allText ||
      !(extractFlights allTextUpper).isEmpty
    let isHotel := folderType == "hotel" || emailHotelMatch allText
    let dates := sortDates extractedDates
    emailFlightPart isFlight dates (joinComma (extractFlights allTextUpper))
      (destCityOr dest "") (destCountry dest) subject ++
    emailHotelPart isHotel (emailHotelNightsSync dates) (optOr extractedCity "")
      (optOr hotelName "") subject

/-- The loop body of the backfill script's `processEmailsFromFolder` for one
message: dates are additionally filtered to the tax year, and a single date
is treated as a one-night stay (`checkOut = checkIn + 1 day`). -/
def processEmailMessageBackfill (folderType subject body : String)
    (hotelName extractedCity : Option String) (dest : Option (String × String))
    (extractedDates : List Nat) : List Booking :=
  let allText := subject ++ " " ++ body
  let allTextUpper := upperStr allText
  if carRentalMatch allText then []
  else
    let isFlight := folderType == "flight" || emailFlightMatch allText ||
      !(extractFlights allTextUpper).isEmpty
    let isHotel := folderType == "hotel" || emailHotelMatch allText
    let validDates := (sortDates extractedDates).filter
      (fun d => strGe (fmtDate d) TAX_YEAR_START)
    emailFlightPart isFlight validDates (joinComma (extractFlights allTextUpper))
      (destCityOr dest "") (destCountry dest) subject ++
    emailHotelPart isHotel (emailHotelNightsBackfill validDates)
      (optOr extractedCity "") (optOr hotelName "") subject

/-! ## Cross-booking deduplication (`main` in both scripts) -/

def bookingTypeStr : BookingType → String
  | BookingType.flight => "flight"
  | BookingType.hotel => "hotel"

/-- The dedup key `b.date + '|' + b.type`. -/
def bookingKey (b : Booking) : String := b.date ++ "|" ++ bookingTypeStr b.type

/-- `deduplicated.find(d => d.date === b.date)` followed by the in-place
flights union (only when `b.flights` is truthy). -/
def mapFirstBooking : List Booking → Booking → List Booking
  | [], _ => []
  | x :: xs, b =>
    if x.date = b.date then { x with flights := mergeFlights x.flights b.flights } :: xs
    else x :: mapFirstBooking xs b

/-- Handling of a duplicate-key booking. -/
def mergeIntoFirstByDate (kept : List Booking) (b : Booking) : List Booking :=
  if b.flights = "" then kept else mapFirstBooking kept b

/-- The dedup loop: `seen` is the key set, `kept` the accumulated
`deduplicated` array. -/
def dedupLoop (seen : List String) (kept : List Booking) : List Booking → List Booking
  | [] => kept
  | b :: rest =>
    if bookingKey b ∈ seen then dedupLoop seen (mergeIntoFirstByDate kept b) rest
    else dedupLoop (bookingKey b :: seen) (kept ++ [b]) rest

/-- Cross-booking deduplication over the combined calendar-then-email list. -/
def dedupBookings (bs : List Booking) : List Booking := dedupLoop [] [] bs

/-- The subsequence of first occurrences of each `(date, type)` key, used to
specify which bookings the dedup keeps. -/
def firstOccLoop (seen : List String) : List Booking → List Booking
  | [] => []
  | b :: rest =>
    if bookingKey b ∈ seen then firstOccLoop seen rest
    else b :: firstOccLoop (bookingKey b :: seen) rest

/-- Every field of a booking except `flights` (the only field the dedup loop
can rewrite). -/
def bookingShape (b : Booking) :
    String × BookingType × String × String × String × String × String :=
  (b.date, b.type, b.place, b.city, b.country, b.source, b.raw)

/-! ## Proofs -/

/-! ### Lemmas about the string primitives -/

theorem startsWithL_refl (l : List Char) : startsWithL l l = true := by
  induction l with
  | nil => rfl
  | cons c cs ih => simp [startsWithL, ih]

theorem startsWithL_append (a b : List Char) : startsWithL (a ++ b) a = true := by
  induction a with
  | nil => cases b <;> rfl
  | cons c cs ih => simp [startsWithL, ih]

theorem containsL_refl (l : List Char) : containsL l l = true := by
  cases l with
  | nil => rfl
  | cons c cs => simp [containsL, startsWithL_refl]

theorem containsL_append_left (a b : List Char) : containsL (a ++ b) a = true := by
  cases a with
  | nil => cases b <;> simp [containsL, startsWithL]
  | cons c cs =>
    have h := startsWithL_append (c :: cs) b
    simp only [List.cons_append, containsL, Bool.or_eq_true]
    left
    simpa using h

theorem containsL_append_right (a b : List Char) : containsL (a ++ b) b = true := by
  induction a with
  | nil => exact containsL_refl b
  | cons c cs ih =>
    simp only [List.cons_append, containsL, Bool.or_eq_true]
    right
    exact ih

theorem startsWithL_length_le {l p : List Char} (h : startsWithL l p = true) :
    p.length ≤ l.length := by
  induction p generalizing l with
  | nil => simp
  | cons d ds ih =>
    cases l with
    | nil => simp [startsWithL] at h
    | cons c cs =>
      simp only [startsWithL, Bool.and_eq_true] at h
      simpa [List.length_cons, Nat.succ_le_succ_iff] using ih h.2

theorem countOccurL_short {s p : List Char} (h : s.length < p.length) :
    countOccurL s p = 0 := by
  induction s with
  | nil =>
    cases p with
    | nil => simp at h
    | cons d ds => simp [countOccurL, startsWithL]
  | cons c cs ih =>
    have h2 : cs.length < p.length := Nat.lt_of_le_of_lt (Nat.le_succ _) h
    have hs : startsWithL (c :: cs) p = false := by
      cases hw : startsWithL (c :: cs) p with
      | false => rfl
      | true => exact absurd (startsWithL_length_le hw) (Nat.not_le_of_lt h)
    simp [countOccurL, hs, ih h2]

theorem countOccurL_self {p : List Char} (h : p ≠ []) : countOccurL p p = 1 := by
  cases p with
  | nil => exact absurd rfl h
  | cons c cs =>
    have hshort : countOccurL cs (c :: cs) = 0 :=
      countOccurL_short (by simp [Nat.lt_succ_iff])
    simp [countOccurL, startsWithL_refl, hshort]

/-! ### Lemmas about tokenisation -/

theorem splitRaw_ne_nil (l : List Char) : splitRaw l ≠ [] := by
  cases l with
  | nil => simp [splitRaw]
  | cons c cs =>
    show (match splitRaw cs with
      | [] => [[c]]
      | t :: ts => if isSep c then [] :: t :: ts else (c :: t) :: ts) ≠ []
    cases splitRaw cs with
    | nil => simp
    | cons t ts =>
      by_cases hc : isSep c = true <;> simp [hc]

/-- Unfolding equation for `splitRaw` on a cons, once the tail's result is
known. -/
theorem splitRaw_cons_eq (c : Char) (cs t0 : List Char) (ts : List (List Char))
    (hs : splitRaw cs = t0 :: ts) :
    splitRaw (c :: cs) = if isSep c = true then [] :: t0 :: ts else (c :: t0) :: ts := by
  rw [splitRaw, hs]

theorem splitRaw_wf (l : List Char) :
    ∀ t ∈ splitRaw l, ∀ c ∈ t, isSep c = false := by
  induction l with
  | nil =>
    intro t ht
    simp only [splitRaw, List.mem_singleton] at ht
    subst ht
    intro c hc
    simp at hc
  | cons c cs ih =>
    intro t ht
    cases hs : splitRaw cs with
    | nil => exact absurd hs (splitRaw_ne_nil cs)
    | cons t0 ts =>
      rw [splitRaw_cons_eq c cs t0 ts hs] at ht
      by_cases hc : isSep c = true
      · rw [if_pos hc] at ht
        rcases List.mem_cons.1 ht with rfl | ht
        · intro x hx; simp at hx
        · exact ih t (hs ▸ ht)
      · have hc' : isSep c = false := by simpa using hc
        rw [if_neg (by simp [hc'])] at ht
        rcases List.mem_cons.1 ht with rfl | ht
        · intro x hx
          rcases List.mem_cons.1 hx with rfl | hx
          · exact hc'
          · exact ih t0 (hs ▸ List.mem_cons_self t0 ts) x hx
        · exact ih t (hs ▸ List.mem_cons_of_mem t0 ht)

/-- A token produced by `splitToks` is non-empty and separator-free. -/
theorem splitToks_wf (l : List Char) :
    ∀ t ∈ splitToks l, t ≠ [] ∧ ∀ c ∈ t, isSep c = false := by
  intro t ht
  rw [splitToks, List.mem_filter] at ht
  refine ⟨?_, splitRaw_wf l t ht.1⟩
  have := ht.2
  cases t with
  | nil => simp [List.isEmpty] at this
  | cons x xs => simp

/-- Prepending a separator-free run extends the first raw fragment. -/
theorem splitRaw_tok_append (t : List Char) (h : ∀ c ∈ t, isSep c = false) :
    ∀ u h0 ts, splitRaw u = h0 :: ts → splitRaw (t ++ u) = (t ++ h0) :: ts := by
  induction t with
  | nil => intro u h0 ts hu; simpa using hu
  | cons c t' ih =>
    intro u h0 ts hu
    have hc : isSep c = false := h c (by simp)
    have ih' := ih (fun x hx => h x (by simp [hx])) u h0 ts hu
    rw [List.cons_append, splitRaw_cons_eq c (t' ++ u) (t' ++ h0) ts ih',
      if_neg (by simp [hc]), List.cons_append]

theorem splitToks_sep_cons (c : Char) (l : List Char) (hc : isSep c = true) :
    splitToks (c :: l) = splitToks l := by
  cases hs : splitRaw l with
  | nil => exact absurd hs (splitRaw_ne_nil l)
  | cons t0 ts =>
    unfold splitToks
    rw [splitRaw_cons_eq c l t0 ts hs, if_pos hc, ← hs, List.filter_cons]
    simp [List.isEmpty]

/-- Splitting a non-empty separator-free token followed by a separator-headed
(or empty) remainder isolates that token. -/
theorem splitToks_tok_append (t u : List Char) (hne : t ≠ [])
    (hwf : ∀ c ∈ t, isSep c = false)
    (hu : u = [] ∨ ∃ d u', u = d :: u' ∧ isSep d = true) :
    splitToks (t ++ u) = t :: splitToks u := by
  obtain ⟨x, xs, rfl⟩ : ∃ x xs, t = x :: xs := by
    cases t with
    | nil => exact absurd rfl hne
    | cons x xs => exact ⟨x, xs, rfl⟩
  rcases hu with rfl | ⟨d, u', rfl, hd⟩
  · have hr : splitRaw ((x :: xs) ++ []) = ((x :: xs) ++ []) :: [] :=
      splitRaw_tok_append (x :: xs) hwf [] [] [] rfl
    unfold splitToks
    rw [hr, List.append_nil]
    simp [splitRaw]
  · cases hs : splitRaw u' with
    | nil => exact absurd hs (splitRaw_ne_nil u')
    | cons t0 ts =>
      have hdu : splitRaw (d :: u') = [] :: t0 :: ts := by
        rw [splitRaw_cons_eq d u' t0 ts hs, if_pos hd]
      have hr := splitRaw_tok_append (x :: xs) hwf (d :: u') [] (t0 :: ts) hdu
      rw [List.append_nil] at hr
      unfold splitToks
      rw [hr, hdu]
      simp

/-- Round trip: `splitToks` recovers the token list from a `', '`-join of
non-empty separator-free tokens. -/
theorem splitToks_joinToks (ts : List (List Char))
    (h : ∀ t ∈ ts, t ≠ [] ∧ ∀ c ∈ t, isSep c = false) :
    splitToks (joinToks ts) = ts := by
  induction ts with
  | nil => rfl
  | cons t ts ih =>
    cases ts with
    | nil =>
      have ht := h t (by simp)
      have := splitToks_tok_append t [] ht.1 ht.2 (Or.inl rfl)
      simpa using this
    | cons t2 ts2 =>
      have ht := h t (by simp)
      have hrest : splitToks (joinToks (t2 :: ts2)) = t2 :: ts2 :=
        ih (by intro x hx; exact h x (by simp [hx]))
      have step := splitToks_tok_append t (',' :: ' ' :: joinToks (t2 :: ts2)) ht.1 ht.2
        (Or.inr ⟨',', _, rfl, rfl⟩)
      calc splitToks (joinToks (t :: t2 :: ts2))
          = splitToks (t ++ ',' :: ' ' :: joinToks (t2 :: ts2)) := rfl
        _ = t :: splitToks (',' :: ' ' :: joinToks (t2 :: ts2)) := step
        _ = t :: splitToks (' ' :: joinToks (t2 :: ts2)) := by
              rw [splitToks_sep_cons ',' _ (by decide)]
        _ = t :: splitToks (joinToks (t2 :: ts2)) := by
              rw [splitToks_sep_cons ' ' _ (by decide)]
        _ = t :: t2 :: ts2 := by rw [hrest]

/-- Membership in `dedupSeen`. -/
theorem mem_dedupSeen {α : Type} [DecidableEq α] (x : α) :
    ∀ (l seen : List α), x ∈ dedupSeen seen l ↔ x ∈ l ∧ x ∉ seen := by
  intro l
  induction l with
  | nil => intro seen; simp [dedupSeen]
  | cons y ys ih =>
    intro seen
    by_cases hy : y ∈ seen
    · simp only [dedupSeen, if_pos hy]
      rw [ih]
      constructor
      · rintro ⟨hx, hs⟩; exact ⟨by simp [hx], hs⟩
      · rintro ⟨hx, hs⟩
        rcases List.mem_cons.1 hx with rfl | hx
        · exact absurd hy hs
        · exact ⟨hx, hs⟩
    · simp only [dedupSeen, if_neg hy]
      constructor
      · intro hx
        rcases List.mem_cons.1 hx with rfl | hx
        · exact ⟨by simp, hy⟩
        · have := (ih (y :: seen)).1 hx
          exact ⟨by simp [this.1], fun hs => this.2 (by simp [hs])⟩
      · rintro ⟨hx, hs⟩
        rcases List.mem_cons.1 hx with rfl | hx
        · simp
        · by_cases hxy : x = y
          · subst hxy; simp
          · exact List.mem_cons_of_mem _ ((ih (y :: seen)).2 ⟨hx, by simp [hs, hxy]⟩)

theorem mem_dedupFirstL {α : Type} [DecidableEq α] (x : α) (l : List α) :
    x ∈ dedupFirstL l ↔ x ∈ l := by
  unfold dedupFirstL
  rw [mem_dedupSeen]
  simp

/-- Characterisation of the `dateRange` loop: given exactly the fuel the
loop needs, it produces `fmtDate` of each day from `d` for `fuel` days. -/
theorem dateRangeAux_spec (fuel : Nat) : ∀ d e : Nat, fuel = e + 1 - d →
    (dateRangeAux fuel d e).length = fuel ∧
    ∀ i : Nat, i < fuel → (dateRangeAux fuel d e)[i]? = some (fmtDate (d + i)) := by
  induction fuel with
  | zero => intro d e _; simp [dateRangeAux]
  | succ fuel ih =>
    intro d e hfuel
    have hde : d ≤ e := by omega
    obtain ⟨ihlen, ihget⟩ := ih (d + 1) e (by omega)
    rw [dateRangeAux, if_pos hde]
    refine ⟨by simp [ihlen], ?_⟩
    intro i hi
    cases i with
    | zero =>
      simp only [List.getElem?_cons_zero]
      exact congrArg some (congrArg fmtDate (by omega))
    | succ j =>
      simp only [List.getElem?_cons_succ]
      rw [ihget j (by omega)]
      exact congrArg some (congrArg fmtDate (by omega))

/-! ### Store lemmas -/

theorem lookupKey_setKey_self (m : List (String × LocationRecord)) (k : String)
    (v : LocationRecord) : lookupKey (setKey m k v) k = some v := by
  induction m with
  | nil => simp [setKey, lookupKey]
  | cons kv rest ih =>
    obtain ⟨k', v'⟩ := kv
    by_cases h : k' = k
    · simp [setKey, h, lookupKey]
    · simp [setKey, h, lookupKey, ih]

theorem lookupKey_setKey_other (m : List (String × LocationRecord)) (k d : String)
    (v : LocationRecord) (h : k ≠ d) : lookupKey (setKey m k v) d = lookupKey m d := by
  induction m with
  | nil => simp [setKey, lookupKey, h]
  | cons kv rest ih =>
    obtain ⟨k', v'⟩ := kv
    by_cases hk : k' = k
    · subst hk
      simp [setKey, lookupKey, h, ih]
    · simp [setKey, hk, lookupKey, ih]

theorem lookupKey_applyUpdates_none (updates : List (String × LocationRecord)) :
    ∀ (store : List (String × LocationRecord)) (d : String),
      lookupKey updates d = none →
      lookupKey (applyUpdates store updates) d = lookupKey store d := by
  induction updates with
  | nil => intro store d _; rfl
  | cons kv rest ih =>
    intro store d h
    obtain ⟨k, v⟩ := kv
    have hk : k ≠ d := by
      intro hkd
      simp [lookupKey, hkd] at h
    have hrest : lookupKey rest d = none := by
      simpa [lookupKey, hk] using h
    calc lookupKey (applyUpdates store ((k, v) :: rest)) d
        = lookupKey (applyUpdates (setKey store k v) rest) d := rfl
      _ = lookupKey (setKey store k v) d := ih _ d hrest
      _ = lookupKey store d := lookupKey_setKey_other store k d v hk

/-- The keys of `setKey m k v` are the keys of `m`, with `k` possibly added. -/
theorem mem_keys_setKey (m : List (String × LocationRecord)) (k : String)
    (v : LocationRecord) (x : String) :
    x ∈ (setKey m k v).map Prod.fst ↔ x ∈ m.map Prod.fst ∨ x = k := by
  induction m with
  | nil => simp [setKey]
  | cons kv rest ih =>
    obtain ⟨k', v'⟩ := kv
    by_cases h : k' = k
    · subst h
      simp [setKey]
      tauto
    · simp [setKey, h, ih]
      tauto

theorem nodup_keys_setKey (m : List (String × LocationRecord)) (k : String)
    (v : LocationRecord) (h : (m.map Prod.fst).Nodup) :
    ((setKey m k v).map Prod.fst).Nodup := by
  induction m with
  | nil => simp [setKey]
  | cons kv rest ih =>
    obtain ⟨k', v'⟩ := kv
    simp only [List.map_cons, List.nodup_cons] at h
    by_cases hk : k' = k
    · subst hk
      simpa [setKey] using h
    · have hrec := ih h.2
      have hstep : setKey ((k', v') :: rest) k v = (k', v') :: setKey rest k v := by
        simp [setKey, hk]
      rw [hstep, List.map_cons, List.nodup_cons]
      refine ⟨?_, hrec⟩
      rw [mem_keys_setKey]
      rintro (hx | rfl)
      · exact h.1 hx
      · exact hk rfl

theorem lookupKey_applyUpdates_some (updates : List (String × LocationRecord)) :
    ∀ (store : List (String × LocationRecord)) (d : String) (v : LocationRecord),
      (updates.map Prod.fst).Nodup →
      lookupKey updates d = some v →
      lookupKey (applyUpdates store updates) d = some v := by
  induction updates with
  | nil => intro store d v _ h; simp [lookupKey] at h
  | cons kv rest ih =>
    intro store d v hnd h
    obtain ⟨k, w⟩ := kv
    simp only [List.map_cons, List.nodup_cons] at hnd
    by_cases hk : k = d
    · subst hk
      have hv : w = v := by simpa [lookupKey] using h
      subst hv
      have hrest : lookupKey rest k = none := by
        cases hl : lookupKey rest k with
        | none => rfl
        | some u =>
          exfalso
          apply hnd.1
          clear ih h hnd
          induction rest with
          | nil => simp [lookupKey] at hl
          | cons kv2 rest2 ih2 =>
            obtain ⟨k2, v2⟩ := kv2
            by_cases h2 : k2 = k
            · simp [h2]
            · simp only [lookupKey, h2, if_neg] at hl
              simp [ih2 hl]
      calc lookupKey (applyUpdates store ((k, w) :: rest)) k
          = lookupKey (applyUpdates (setKey store k w) rest) k := rfl
        _ = lookupKey (setKey store k w) k := lookupKey_applyUpdates_none rest _ k hrest
        _ = some w := lookupKey_setKey_self store k w
    · have hrest : lookupKey rest d = some v := by
        simpa [lookupKey, hk] using h
      exact ih (setKey store k w) d v hnd.2 hrest

/-- The update set built by `updateFirebase` has pairwise distinct keys. -/
theorem updateFirebase_nodup_keys (existing : List (String × LocationRecord))
    (bookings : List Booking) :
    (((updateFirebase existing bookings).1).map Prod.fst).Nodup := by
  suffices h : ∀ acc : List (String × LocationRecord) × SyncCounts,
      (acc.1.map Prod.fst).Nodup →
      (((bookings.foldl (updateStep existing) acc).1).map Prod.fst).Nodup by
    exact h ([], ⟨0, 0, 0⟩) (by simp)
  induction bookings with
  | nil => intro acc h; exact h
  | cons b rest ih =>
    intro acc h
    refine ih _ ?_
    unfold updateStep
    by_cases h1 : isLocked (lookupKey existing b.date) = true
    · simpa [h1] using h
    · by_cases h2 :
        hasNew (lookupKey existing b.date)
          (mergeEntry (lookupKey existing b.date) b) = true
      · simp only [h1, h2, Bool.false_eq_true, if_false, if_true]
        exact nodup_keys_setKey _ _ _ h
      · simp only [h1, h2, Bool.false_eq_true, if_false]
        exact h

/-! ### Audit-trail lemmas -/

theorem data_append (a b : String) : (a ++ b).data = a.data ++ b.data := rfl

theorem string_eq_empty_iff (s : String) : s = "" ↔ s.data = [] := by
  constructor
  · rintro rfl; rfl
  · intro h
    cases s with
    | mk data => cases h; rfl

/-- The combined audit trail always contains the new line. -/
theorem combineSource_contains_info (s i : String) :
    strContains (combineSource s i) i = true := by
  unfold combineSource
  by_cases hs : s = ""
  · rw [if_pos hs]
    unfold strContains
    exact containsL_refl _
  · rw [if_neg hs]
    by_cases hc : strContains s i = true
    · rw [if_pos hc]
      exact hc
    · rw [if_neg hc]
      unfold strContains
      rw [data_append, data_append]
      exact containsL_append_right _ _

/-- The combined audit trail always contains the prior trail. -/
theorem combineSource_contains_prior (s i : String) :
    strContains (combineSource s i) s = true := by
  unfold combineSource
  by_cases hs : s = ""
  · rw [if_pos hs]
    subst hs
    unfold strContains
    show containsL i.data [] = true
    cases i.data with
    | nil => rfl
    | cons c cs => simp [containsL, startsWithL]
  · rw [if_neg hs]
    by_cases hc : strContains s i = true
    · rw [if_pos hc]
      unfold strContains
      exact containsL_refl _
    · rw [if_neg hc]
      unfold strContains
      rw [data_append, data_append, List.append_assoc]
      exact containsL_append_left _ _

/-- Appending the same line a second time is a no-op. -/
theorem combineSource_idem (s i : String) :
    combineSource (combineSource s i) i = combineSource s i := by
  by_cases hs : s = ""
  · have h1 : combineSource s i = i := by unfold combineSource; rw [if_pos hs]
    rw [h1]
    by_cases hi : i = ""
    · unfold combineSource
      rw [if_pos hi]
    · unfold combineSource
      rw [if_neg hi, if_pos (show strContains i i = true from containsL_refl _)]
  · by_cases hc : strContains s i = true
    · have h1 : combineSource s i = s := by unfold combineSource; rw [if_neg hs, if_pos hc]
      rw [h1]
      exact h1
    · have h1 : combineSource s i = s ++ " | " ++ i := by
        unfold combineSource
        rw [if_neg hs, if_neg hc]
      rw [h1]
      have hne2 : s ++ " | " ++ i ≠ "" := by
        intro h
        have hdat := congrArg String.data h
        rw [data_append, data_append] at hdat
        rcases List.append_eq_nil.mp hdat with ⟨h2, _⟩
        rcases List.append_eq_nil.mp h2 with ⟨_, h3⟩
        exact absurd h3 (by decide)
      have hcont : strContains (s ++ " | " ++ i) i = true := by
        unfold strContains
        rw [data_append, data_append]
        exact containsL_append_right _ _
      unfold combineSource
      rw [if_neg hne2, if_pos hcont]

/-! ### Flight-merge lemmas -/

theorem splitToks_nil : splitToks [] = [] := rfl

/-- Every flight token of the stored string survives `mergeFlights`. -/
theorem mergeFlights_toks_subset (e n : String) :
    ∀ t ∈ splitToks e.data, t ∈ splitToks (mergeFlights e n).data := by
  intro t ht
  unfold mergeFlights
  by_cases he : e = ""
  · exfalso
    rw [he] at ht
    rw [show ("" : String).data = [] from rfl, splitToks_nil] at ht
    exact absurd ht (by simp)
  · by_cases hn : n = ""
    · rw [if_neg (by tauto), if_neg he, if_pos hn]
      exact ht
    · rw [if_neg (by tauto), if_neg he, if_neg hn]
      have hwf : ∀ t' ∈ dedupFirstL (splitToks e.data ++ splitToks n.data),
          t' ≠ [] ∧ ∀ c ∈ t', isSep c = false := by
        intro t' ht'
        have hmem := (mem_dedupFirstL t' _).1 ht'
        rcases List.mem_append.1 hmem with h | h
        · exact splitToks_wf _ t' h
        · exact splitToks_wf _ t' h
      have hrt : splitToks (String.mk
            (joinToks (dedupFirstL (splitToks e.data ++ splitToks n.data)))).data
          = dedupFirstL (splitToks e.data ++ splitToks n.data) := by
        show splitToks (joinToks _) = _
        exact splitToks_joinToks _ hwf
      rw [hrt]
      exact (mem_dedupFirstL t _).2 (List.mem_append.2 (Or.inl ht))

theorem MonoRel_refl (r : LocationRecord) : MonoRel r r :=
  ⟨fun _ => rfl, fun _ => rfl, fun _ => rfl, fun _ ht => ht, containsL_refl _, fun h => h⟩

theorem mergeEntry_mono (c : LocationRecord) (b : Booking) :
    MonoRel c (mergeEntry (some c) b) := by
  refine ⟨?_, ?_, ?_, ?_, ?_, ?_⟩
  · intro h
    simp only [mergeEntry, jsOr]
    rw [if_neg h]
  · intro h
    simp only [mergeEntry, jsOr]
    rw [if_neg h]
  · intro h
    simp only [mergeEntry, jsOr]
    rw [if_neg h]
  · intro t ht
    simp only [mergeEntry]
    exact mergeFlights_toks_subset c.flights b.flights t ht
  · simp only [mergeEntry]
    exact combineSource_contains_prior _ _
  · intro _
    rfl

/-! ### Fold invariants of the reconcile run -/

/-- If the record at date `d` is manual-locked, no iteration ever writes an
update under key `d`. -/
theorem updateFirebase_locked_no_update (store : List (String × LocationRecord))
    (bookings : List Booking) (d : String) (r : LocationRecord)
    (hlook : lookupKey store d = some r) (hlock : isLocked (some r) = true) :
    lookupKey (updateFirebase store bookings).1 d = none := by
  suffices h : ∀ acc : List (String × LocationRecord) × SyncCounts,
      lookupKey acc.1 d = none →
      lookupKey ((bookings.foldl (updateStep store) acc)).1 d = none by
    exact h ([], ⟨0, 0, 0⟩) rfl
  induction bookings with
  | nil => intro acc h; exact h
  | cons b rest ih =>
    intro acc h
    refine ih _ ?_
    simp only [updateStep]
    by_cases hbd : b.date = d
    · rw [hbd, hlook, if_pos hlock]
      exact h
    · by_cases h1 : isLocked (lookupKey store b.date) = true
      · rw [if_pos h1]
        exact h
      · rw [if_neg h1]
        by_cases h2 : hasNew (lookupKey store b.date)
            (mergeEntry (lookupKey store b.date) b) = true
        · rw [if_pos h2]
          show lookupKey (setKey acc.1 b.date _) d = none
          rw [lookupKey_setKey_other _ _ _ _ hbd]
          exact h
        · rw [if_neg h2]
          exact h

/-- Every record in the update set is monotone over what the original store
held at the same date. -/
theorem updateFirebase_mono_inv (store : List (String × LocationRecord))
    (bookings : List Booking) :
    ∀ k v, lookupKey (updateFirebase store bookings).1 k = some v →
      ∀ r₀, lookupKey store k = some r₀ → MonoRel r₀ v := by
  suffices h : ∀ acc : List (String × LocationRecord) × SyncCounts,
      (∀ k v, lookupKey acc.1 k = some v →
        ∀ r₀, lookupKey store k = some r₀ → MonoRel r₀ v) →
      ∀ k v, lookupKey ((bookings.foldl (updateStep store) acc)).1 k = some v →
        ∀ r₀, lookupKey store k = some r₀ → MonoRel r₀ v by
    refine h ([], ⟨0, 0, 0⟩) ?_
    intro k v hkv
    simp [lookupKey] at hkv
  induction bookings with
  | nil => exact fun acc h => h
  | cons b rest ih =>
    intro acc hacc
    refine ih _ ?_
    intro k v hkv r₀ hr₀
    simp only [updateStep] at hkv
    by_cases h1 : isLocked (lookupKey store b.date) = true
    · rw [if_pos h1] at hkv
      exact hacc k v hkv r₀ hr₀
    · rw [if_neg h1] at hkv
      by_cases h2 : hasNew (lookupKey store b.date)
          (mergeEntry (lookupKey store b.date) b) = true
      · rw [if_pos h2] at hkv
        by_cases hbk : b.date = k
        · subst hbk
          have hkv' : lookupKey (setKey acc.1 b.date
              (mergeEntry (lookupKey store b.date) b)) b.date = some v := hkv
          rw [lookupKey_setKey_self] at hkv'
          have hv : v = mergeEntry (lookupKey store b.date) b :=
            (Option.some.injEq _ _ ▸ hkv'.symm)
          rw [hv, hr₀]
          exact mergeEntry_mono r₀ b
        · have hkv' : lookupKey (setKey acc.1 b.date
              (mergeEntry (lookupKey store b.date) b)) k = some v := hkv
          rw [lookupKey_setKey_other _ _ _ _ hbk] at hkv'
          exact hacc k v hkv' r₀ hr₀
      · rw [if_neg h2] at hkv
        exact hacc k v hkv r₀ hr₀

/-! ## Claim C1: manual records are immutable -/

/-- C1: for every date whose existing record has a non-empty `city` and both
`autoGps` and `autoBooking` false, reconciling any list of bookings emits no
update for that date, and applying the produced update set leaves the stored
record byte-for-byte unchanged. -/
theorem c1_manual_record_immutable (store : List (String × LocationRecord))
    (bookings : List Booking) (d : String) (r : LocationRecord)
    (hlook : lookupKey store d = some r) (hcity : r.city ≠ "")
    (hgps : r.autoGps = false) (hbook : r.autoBooking = false) :
    lookupKey (updateFirebase store bookings).1 d = none ∧
    lookupKey (applyUpdates store (updateFirebase store bookings).1) d = some r := by
  have hlock : isLocked (some r) = true := by
    simp [isLocked, hgps, hbook, hcity]
  have h1 := updateFirebase_locked_no_update store bookings d r hlook hlock
  refine ⟨h1, ?_⟩
  rw [lookupKey_applyUpdates_none _ _ _ h1]
  exact hlook

/-- Witness for C1: the record `city="Paris", autoGps=false, autoBooking=false`
is untouched by a hotel booking for the same date. -/
theorem c1_manual_record_immutable_witness :
    lookupKey (updateFirebase
        [("2025-06-01", ⟨"", "Paris", "France", "", "", none, none, false, false, false,
          "", none⟩)]
        [⟨BookingType.hotel, "2025-06-01", "", "Rome", "Italy", "Hotel X", "calendar",
          "Stay at Hotel X"⟩]).1 "2025-06-01" = none ∧
    lookupKey (applyUpdates
        [("2025-06-01", ⟨"", "Paris", "France", "", "", none, none, false, false, false,
          "", none⟩)]
        (updateFirebase
          [("2025-06-01", ⟨"", "Paris", "France", "", "", none, none, false, false, false,
            "", none⟩)]
          [⟨BookingType.hotel, "2025-06-01", "", "Rome", "Italy", "Hotel X", "calendar",
            "Stay at Hotel X"⟩]).1) "2025-06-01"
      = some ⟨"", "Paris", "France", "", "", none, none, false, false, false, "", none⟩ :=
  c1_manual_record_immutable _ _ _ _ (by decide) (by decide) rfl rfl

/-! ## Claim C2: a reconcile run only adds information -/

/-- C2: for every existing store and booking list, after applying the update
set of one reconcile run to the store, each date's record has only gained
information relative to what the store held: non-empty `place`/`city`/
`country` are preserved exactly, the stored flight token set is contained in
the resulting one, the prior `bookingSource` trail is still contained, and
`autoBooking` never resets.  This includes runs where several bookings
target the same date. -/
theorem c2_reconcile_run_monotone (store : List (String × LocationRecord))
    (bookings : List Booking) (d : String) (r₀ r₁ : LocationRecord)
    (h0 : lookupKey store d = some r₀)
    (h1 : lookupKey (applyUpdates store (updateFirebase store bookings).1) d = some r₁) :
    (r₀.place ≠ "" → r₁.place = r₀.place) ∧
    (r₀.city ≠ "" → r₁.city = r₀.city) ∧
    (r₀.country ≠ "" → r₁.country = r₀.country) ∧
    (∀ t ∈ splitToks r₀.flights.data, t ∈ splitToks r₁.flights.data) ∧
    strContains r₁.bookingSource r₀.bookingSource = true ∧
    (r₀.autoBooking = true → r₁.autoBooking = true) := by
  cases hu : lookupKey (updateFirebase store bookings).1 d with
  | none =>
    rw [lookupKey_applyUpdates_none _ _ _ hu, h0] at h1
    have : r₀ = r₁ := by injection h1
    subst this
    exact MonoRel_refl r₀
  | some v =>
    have hap := lookupKey_applyUpdates_some _ store d v
      (updateFirebase_nodup_keys store bookings) hu
    rw [hap] at h1
    have hv : v = r₁ := by injection h1
    subst hv
    exact updateFirebase_mono_inv store bookings d v hu r₀ h0

/-- Witness for C2: a store record merged against a flight booking and a
hotel booking on the same date in one run. -/
theorem c2_reconcile_run_monotone_witness :
    let r₀ : LocationRecord := ⟨"Hotel Y", "Rome", "", "BA123", "note", none, none,
      false, false, true, "calendar: old", none⟩
    let r₁ : LocationRecord := ⟨"Hotel Y", "Rome", "Italy", "BA123, EK456", "note",
      none, none, false, false, true, "calendar: old | email: Itinerary", none⟩
    (r₀.place ≠ "" → r₁.place = r₀.place) ∧
    (r₀.city ≠ "" → r₁.city = r₀.city) ∧
    (r₀.country ≠ "" → r₁.country = r₀.country) ∧
    (∀ t ∈ splitToks r₀.flights.data, t ∈ splitToks r₁.flights.data) ∧
    strContains r₁.bookingSource r₀.bookingSource = true ∧
    (r₀.autoBooking = true → r₁.autoBooking = true) :=
  c2_reconcile_run_monotone
    [("2025-07-01", ⟨"Hotel Y", "Rome", "", "BA123", "note", none, none, false, false,
      true, "calendar: old", none⟩)]
    [⟨BookingType.flight, "2025-07-01", "EK456", "Milan", "Italy", "", "email",
      "Itinerary"⟩,
     ⟨BookingType.hotel, "2025-07-01", "", "Milan", "", "Hotel Z", "email", "Stay"⟩]
    "2025-07-01" _ _ (by decide) (by decide)

/-! ## Claim C3: hotel-night expansion -/

/-- C3: for every stay with `checkIn < checkOut`, the night expansion is the
inclusive day sequence from `checkIn` to `checkOut - 1 day`: it has exactly
`checkOut - checkIn` entries and its `i`-th entry is the date `checkIn + i`,
so the checkout day itself is excluded. -/
theorem c3_hotel_nights_expansion (checkIn checkOut : Nat) (h : checkIn < checkOut) :
    (expandNights checkIn checkOut).length = checkOut - checkIn ∧
    ∀ i : Nat, i < checkOut - checkIn →
      (expandNights checkIn checkOut)[i]? = some (fmtDate (checkIn + i)) := by
  have hfuel : (checkOut - 1) + 1 - checkIn = checkOut - checkIn := by omega
  simp only [expandNights, dateRange]
  rw [hfuel]
  exact dateRangeAux_spec (checkOut - checkIn) checkIn (checkOut - 1) (by omega)

/-- Witness for C3: `checkIn="2025-06-01"`, `checkOut="2025-06-04"` expands to
exactly the three nights `2025-06-01`, `2025-06-02`, `2025-06-03`. -/
theorem c3_hotel_nights_expansion_witness :
    expandNights (daysFromCivil 2025 6 1) (daysFromCivil 2025 6 4)
      = ["2025-06-01", "2025-06-02", "2025-06-03"] ∧
    ((expandNights (daysFromCivil 2025 6 1) (daysFromCivil 2025 6 4)).length
        = daysFromCivil 2025 6 4 - daysFromCivil 2025 6 1 ∧
      ∀ i : Nat, i < daysFromCivil 2025 6 4 - daysFromCivil 2025 6 1 →
        (expandNights (daysFromCivil 2025 6 1) (daysFromCivil 2025 6 4))[i]?
          = some (fmtDate (daysFromCivil 2025 6 1 + i))) :=
  ⟨by decide, c3_hotel_nights_expansion _ _ (by decide)⟩

/-! ## Claim C4: single-date hotel emails -/

/-- Counterexample to C4 as stated: in the periodic sync script, a hotel
email with exactly one in-range extracted date produces no booking at all
(its hotel branch requires at least two dates), rather than a single-night
booking. -/
theorem c4_single_date_hotel_cex :
    processEmailMessageSync "hotel" "Reservation" "" none none none
      [daysFromCivil 2025 6 10] = [] := by decide

/-- C4 (amended): in the backfill script a hotel email with exactly one
in-range date is treated as a single-night stay (`checkOut = checkIn + 1`),
yielding exactly one hotel booking dated `checkIn`; the periodic sync script
instead produces no hotel booking from a single-date email. -/
theorem c4_single_date_hotel (folderType subject body : String)
    (hotelName extractedCity : Option String) (dest : Option (String × String))
    (d : Nat)
    (hcar : carRentalMatch (subject ++ " " ++ body) = false)
    (hfolder : folderType = "hotel")
    (hrange : strGe (fmtDate d) TAX_YEAR_START = true) :
    ((processEmailMessageBackfill folderType subject body hotelName extractedCity dest
        [d]).filter (fun b => b.type == BookingType.hotel))
      = [⟨BookingType.hotel, fmtDate d, "", optOr extractedCity "", "",
          optOr hotelName "", "email", subject⟩] ∧
    ∀ (ft s bd : String) (hn ec : Option String) (ds : Option (String × String))
      (d2 : Nat),
      (processEmailMessageSync ft s bd hn ec ds [d2]).filter
        (fun b => b.type == BookingType.hotel) = [] := by
  have hflightpart : ∀ (cond : Bool) (dates : List Nat) (fs ci co su : String),
      (emailFlightPart cond dates fs ci co su).filter
        (fun b => b.type == BookingType.hotel) = [] := by
    intro cond dates fs ci co su
    cases cond with
    | false => rfl
    | true =>
      cases dates with
      | nil => rfl
      | cons d0 rest => rfl
  have hhotelnil : ∀ (cond : Bool) (ci pl su : String),
      emailHotelPart cond [] ci pl su = [] := by
    intro cond ci pl su
    cases cond <;> rfl
  constructor
  · subst hfolder
    simp only [processEmailMessageBackfill]
    rw [if_neg (by simp [hcar])]
    have hvalid : List.filter (fun x => strGe (fmtDate x) TAX_YEAR_START)
        (sortDates [d]) = [d] := by
      show List.filter _ [d] = [d]
      rw [List.filter_cons, if_pos hrange, List.filter_nil]
    rw [hvalid, List.filter_append, hflightpart, List.nil_append]
    have hnights : dateRange d (d + 1 - 1) = [fmtDate d] := by
      rw [show d + 1 - 1 = d from by omega]
      unfold dateRange
      rw [show d + 1 - d = 1 from by omega, dateRangeAux, if_pos (Nat.le_refl d)]
      rfl
    have hnightsB : emailHotelNightsBackfill [d] = [fmtDate d] := by
      simp only [emailHotelNightsBackfill]
      rw [if_neg (by decide)]
      rw [hnights, List.filter_cons, if_pos hrange, List.filter_nil]
    rw [hnightsB,
      show ("hotel" == "hotel" || emailHotelMatch (subject ++ " " ++ body)) = true
        from by simp]
    rfl
  · intro ft s bd hn ec ds d2
    simp only [processEmailMessageSync]
    by_cases hcar2 : carRentalMatch (s ++ " " ++ bd) = true
    · rw [if_pos hcar2]
      rfl
    · rw [if_neg hcar2, List.filter_append, hflightpart, List.nil_append]
      rw [show emailHotelNightsSync (sortDates [d2]) = [] from rfl, hhotelnil]
      rfl

/-- Witness for C4 (amended): a hotel-folder email with the single in-range
date 2025-06-10 yields exactly one single-night hotel booking in the
backfill script. -/
theorem c4_single_date_hotel_witness :
    carRentalMatch ("Reservation" ++ " " ++ "") = false ∧
    strGe (fmtDate (daysFromCivil 2025 6 10)) TAX_YEAR_START = true ∧
    ((processEmailMessageBackfill "hotel" "Reservation" "" none none none
        [daysFromCivil 2025 6 10]).filter (fun b => b.type == BookingType.hotel)
      = [⟨BookingType.hotel, fmtDate (daysFromCivil 2025 6 10), "", optOr none "", "",
          optOr none "", "email", "Reservation"⟩]) :=
  ⟨by decide, by decide,
    (c4_single_date_hotel "hotel" "Reservation" "" none none none
      (daysFromCivil 2025 6 10) (by decide) rfl (by decide)).1⟩

/-! ## Claim C5: cross-booking deduplication -/

theorem mapFirstBooking_shape (l : List Booking) (b : Booking) :
    (mapFirstBooking l b).map bookingShape = l.map bookingShape := by
  induction l with
  | nil => rfl
  | cons x xs ih =>
    by_cases h : x.date = b.date
    · simp [mapFirstBooking, h, bookingShape]
    · simp [mapFirstBooking, h, ih]

theorem mergeIntoFirstByDate_shape (kept : List Booking) (b : Booking) :
    (mergeIntoFirstByDate kept b).map bookingShape = kept.map bookingShape := by
  unfold mergeIntoFirstByDate
  by_cases h : b.flights = ""
  · rw [if_pos h]
  · rw [if_neg h, mapFirstBooking_shape]

theorem dedupLoop_shape (rest : List Booking) :
    ∀ (seen : List String) (kept : List Booking),
      (dedupLoop seen kept rest).map bookingShape
        = kept.map bookingShape ++ (firstOccLoop seen rest).map bookingShape := by
  induction rest with
  | nil => intro seen kept; simp [dedupLoop, firstOccLoop]
  | cons b rs ih =>
    intro seen kept
    by_cases h : bookingKey b ∈ seen
    · simp only [dedupLoop, firstOccLoop, if_pos h]
      rw [ih, mergeIntoFirstByDate_shape]
    · simp only [dedupLoop, firstOccLoop, if_neg h]
      rw [ih]
      simp

/-- Counterexample to C5 as stated: with a hotel booking and two flight
bookings on the same date, the second flight's numbers are unioned into the
first kept booking with that date — the hotel — rather than into the kept
flight booking of the `(date, type)` group; the kept flight booking stays at
`"BA1"` instead of `"BA1, EK2"`. -/
theorem c5_dedup_flights_merge_cex :
    dedupBookings
      [⟨BookingType.hotel, "2025-06-01", "", "", "", "H", "calendar", "h"⟩,
       ⟨BookingType.flight, "2025-06-01", "BA1", "", "", "", "calendar", "f1"⟩,
       ⟨BookingType.flight, "2025-06-01", "EK2", "", "", "", "email", "f2"⟩]
      = [⟨BookingType.hotel, "2025-06-01", "EK2", "", "", "H", "calendar", "h"⟩,
         ⟨BookingType.flight, "2025-06-01", "BA1", "", "", "", "calendar", "f1"⟩] ∧
    ¬ ∃ b ∈ dedupBookings
      [⟨BookingType.hotel, "2025-06-01", "", "", "", "H", "calendar", "h"⟩,
       ⟨BookingType.flight, "2025-06-01", "BA1", "", "", "", "calendar", "f1"⟩,
       ⟨BookingType.flight, "2025-06-01", "EK2", "", "", "", "email", "f2"⟩],
      b.type = BookingType.flight ∧ b.flights = "BA1, EK2" := by decide

/-- C5 (amended): the deduplication keeps exactly the first occurrence of
each `(date, type)` key, in order, preserving every booking field except
possibly `flights` (so a calendar booking still wins over an email booking
with the same key); a subsequent occurrence of an already-seen key is folded
in by merging its flights into the first kept booking with the same `date`,
which may belong to a different type's group. -/
theorem c5_dedup_keeps_first :
    (∀ bs : List Booking,
      (dedupBookings bs).map bookingShape = (firstOccLoop [] bs).map bookingShape) ∧
    (∀ (seen : List String) (kept : List Booking) (b : Booking) (rest : List Booking),
      bookingKey b ∈ seen →
      dedupLoop seen kept (b :: rest) = dedupLoop seen (mergeIntoFirstByDate kept b) rest) := by
  constructor
  · intro bs
    have h := dedupLoop_shape bs [] []
    simpa [dedupBookings] using h
  · intro seen kept b rest h
    simp [dedupLoop, h]

/-! ## Claim C6: GPS-vs-booking country conflict -/

/-- C6: when the current record has `autoGps` true and both countries are
non-empty and different, the merged record carries the conflict note and its
country stays the current record's value. -/
theorem c6_gps_country_conflict (c : LocationRecord) (b : Booking)
    (hg : c.autoGps = true) (hc : c.country ≠ "") (hb : b.country ≠ "")
    (hne : c.country ≠ b.country) :
    (mergeEntry (some c) b).countryConflict
      = some ("GPS says " ++ c.country ++ ", booking says " ++ b.country) ∧
    (mergeEntry (some c) b).country = c.country := by
  constructor
  · simp only [mergeEntry]
    rw [if_pos ⟨hg, hc, hb, hne⟩]
  · simp only [mergeEntry, jsOr]
    rw [if_neg hc]

/-- Witness for C6: `autoGps=true, country="UK"` against a booking with
`country="Italy"`. -/
theorem c6_gps_country_conflict_witness :
    (mergeEntry
        (some ⟨"", "", "UK", "", "", none, none, false, true, true, "", none⟩)
        ⟨BookingType.flight, "2025-06-01", "", "Rome", "Italy", "", "calendar",
          "r"⟩).countryConflict
      = some ("GPS says " ++ "UK" ++ ", booking says " ++ "Italy") ∧
    (mergeEntry
        (some ⟨"", "", "UK", "", "", none, none, false, true, true, "", none⟩)
        ⟨BookingType.flight, "2025-06-01", "", "Rome", "Italy", "", "calendar",
          "r"⟩).country = "UK" :=
  c6_gps_country_conflict _ _ rfl (by decide) (by decide) (by decide)

/-! ## Claim C7: when an update is emitted -/

/-- `hasNew` in propositional form. -/
theorem hasNew_iff (current : Option LocationRecord) (e : LocationRecord) :
    hasNew current e = true ↔
      (current = none ∨ ∃ c, current = some c ∧
        ((c.place = "" ∧ e.place ≠ "") ∨ (c.city = "" ∧ e.city ≠ "") ∨
         (c.flights = "" ∧ e.flights ≠ "") ∨
         (e.flights ≠ "" ∧ e.flights ≠ c.flights) ∨
         (c.bookingSource = "" ∧ e.bookingSource ≠ ""))) := by
  cases current with
  | none => simp [hasNew]
  | some c =>
    simp only [hasNew, Bool.or_eq_true, Bool.and_eq_true, beq_iff_eq, bne_iff_ne]
    constructor
    · intro h
      refine Or.inr ⟨c, rfl, ?_⟩
      tauto
    · rintro (h | ⟨c', hc', h⟩)
      · exact absurd h (by simp)
      · injection hc' with hcc
        subst hcc
        tauto

/-- Counterexample to C7 as stated: this merge changes `bookingSource`
(the audit line is appended), so by the claim an update should be emitted,
yet the engine emits none — the `hasNew` test only checks `bookingSource`
for becoming newly non-empty, not for changing value. -/
theorem c7_emission_cex :
    (mergeEntry (some ⟨"", "", "", "", "", none, none, false, false, true,
        "calendar: old", none⟩)
      ⟨BookingType.hotel, "2025-06-02", "", "", "", "", "email", "new"⟩).bookingSource
      ≠ (⟨"", "", "", "", "", none, none, false, false, true,
          "calendar: old", none⟩ : LocationRecord).bookingSource ∧
    reconcileOne (some ⟨"", "", "", "", "", none, none, false, false, true,
        "calendar: old", none⟩)
      ⟨BookingType.hotel, "2025-06-02", "", "", "", "", "email", "new"⟩ = none := by
  decide

/-- C7 (amended): a booking produces an update exactly when it passes the
manual lock and either the record is absent, or `place`, `city` or
`flights` becomes newly non-empty, or the merged flights string is non-empty
and differs from the stored one, or `bookingSource` becomes newly non-empty —
a `bookingSource` append to an already non-empty trail does not by itself
trigger an update; a booking that emits no update increments the skipped
counter instead. -/
theorem c7_emission_characterization (current : Option LocationRecord) (b : Booking) :
    ((reconcileOne current b).isSome ↔
      (isLocked current = false ∧
        (current = none ∨ ∃ c, current = some c ∧
          ((c.place = "" ∧ (mergeEntry current b).place ≠ "") ∨
           (c.city = "" ∧ (mergeEntry current b).city ≠ "") ∨
           (c.flights = "" ∧ (mergeEntry current b).flights ≠ "") ∨
           ((mergeEntry current b).flights ≠ "" ∧
             (mergeEntry current b).flights ≠ c.flights) ∨
           (c.bookingSource = "" ∧ (mergeEntry current b).bookingSource ≠ ""))))) ∧
    ∀ store : List (String × LocationRecord),
      (updateFirebase store [b]).2.skippedCount =
        if (reconcileOne (lookupKey store b.date) b).isSome then 0 else 1 := by
  constructor
  · unfold reconcileOne
    cases hl : isLocked current with
    | true => simp [hl]
    | false =>
      simp only [hl, Bool.false_eq_true, if_false]
      rw [← hasNew_iff current (mergeEntry current b)]
      cases hn : hasNew current (mergeEntry current b) <;> simp [hn]
  · intro store
    show (updateStep store ([], ⟨0, 0, 0⟩) b).2.skippedCount = _
    unfold updateStep reconcileOne
    cases hcur : lookupKey store b.date with
    | none => simp [isLocked, hasNew]
    | some c =>
      cases hl : isLocked (some c) with
      | true => simp [hl]
      | false =>
        cases hn : hasNew (some c) (mergeEntry (some c) b) with
        | true => simp [hl, hn]
        | false => simp [hl, hn]

/-! ## Claim C8: car-rental exclusion takes precedence -/

/-- C8: an item whose combined text matches the car-rental vocabulary
produces no booking, whatever other flight or hotel signals the text also
carries — in every processor the exclusion test runs before any
classification. -/
theorem c8_car_rental_exclusion :
    (∀ (folderType subject body : String) (hotelName extractedCity : Option String)
        (dest : Option (String × String)) (dates : List Nat),
      carRentalMatch (subject ++ " " ++ body) = true →
      processEmailMessageSync folderType subject body hotelName extractedCity dest
        dates = [] ∧
      processEmailMessageBackfill folderType subject body hotelName extractedCity dest
        dates = []) ∧
    (∀ (subject body location : String) (hotelName extractedCity : Option String)
        (dest : Option (String × String)) (startD endD : Option Nat),
      carRentalMatch (subject ++ " " ++ body ++ " " ++ location) = true →
      processCalendarEvent subject body location hotelName extractedCity dest
        startD endD = []) := by
  constructor
  · intro ft s bd hn ec ds dt h
    constructor
    · simp only [processEmailMessageSync]
      rw [if_pos h]
    · simp only [processEmailMessageBackfill]
      rw [if_pos h]
  · intro s bd loc hn ec ds sd ed h
    simp only [processCalendarEvent]
    rw [if_pos h]

/-- Witness for C8: a text with flight signals (`Flight`, `BA123`) and a
hotel signal (`hotel`, `stay`) that also matches the car-rental vocabulary
yields no booking from either processor. -/
theorem c8_car_rental_exclusion_witness :
    carRentalMatch ("Car rental desk - Flight BA123 and hotel stay" ++ " " ++ "") = true ∧
    processEmailMessageSync "flight" "Car rental desk - Flight BA123 and hotel stay" ""
      none none none [daysFromCivil 2025 6 10] = [] ∧
    processCalendarEvent "Car rental desk - Flight BA123 and hotel stay" "" "" none none
      none (some (daysFromCivil 2025 6 10)) (some (daysFromCivil 2025 6 12)) = [] :=
  ⟨by decide,
    (c8_car_rental_exclusion.1 "flight" "Car rental desk - Flight BA123 and hotel stay"
      "" none none none [daysFromCivil 2025 6 10] (by decide)).1,
    c8_car_rental_exclusion.2 "Car rental desk - Flight BA123 and hotel stay" "" ""
      none none none (some (daysFromCivil 2025 6 10)) (some (daysFromCivil 2025 6 12))
      (by decide)⟩

/-! ## Claim C9: `extractFlights` on the example text -/

/-- Counterexample to C9 as stated: on the pre-uppercased example text
`extractFlights` does not return only `BA123` — the pattern's `\s*` between
the two letters and the digits also captures the date fragment `ON 12` as
the code `ON12`. -/
theorem c9_extract_flights_cex :
    extractFlights (upperStr "Flight BA123 LHR to MXP on 12 June 2025") ≠ ["BA123"] ∧
    "ON12" ∈ extractFlights (upperStr "Flight BA123 LHR to MXP on 12 June 2025") := by
  decide

/-- C9 (amended): on the pre-uppercased example text `extractFlights`
returns exactly `["BA123", "ON12"]` in first-seen order: the optional
whitespace the scanner allows between the carrier letters and the digits
makes the uppercased date fragment `ON 12` match as well. -/
theorem c9_extract_flights_example :
    extractFlights (upperStr "Flight BA123 LHR to MXP on 12 June 2025")
      = ["BA123", "ON12"] := by decide

/-! ## Claim C10: the audit append is idempotent -/

theorem sourceInfo_ne_empty (b : Booking) : (sourceInfo b).data ≠ [] := by
  show (b.source ++ ": " ++ strTake b.raw 120).data ≠ []
  rw [data_append, data_append]
  intro h
  rcases List.append_eq_nil.mp h with ⟨h1, _⟩
  rcases List.append_eq_nil.mp h1 with ⟨_, h2⟩
  exact absurd h2 (by decide)

/-- Against an absent record the merged audit trail is exactly the new
line. -/
theorem mergeEntry_none_bookingSource (b : Booking) :
    (mergeEntry none b).bookingSource = sourceInfo b := by
  simp only [mergeEntry, combineSource]
  simp

/-- Re-merging the same booking never changes the audit trail again. -/
theorem mergeEntry_bookingSource_idem (current : Option LocationRecord) (b : Booking) :
    (mergeEntry (some (mergeEntry current b)) b).bookingSource
      = (mergeEntry current b).bookingSource := by
  simp only [mergeEntry]
  exact combineSource_idem _ _

/-- The merged record is never manual-locked (its `autoBooking` is true). -/
theorem mergeEntry_not_locked (current : Option LocationRecord) (b : Booking) :
    isLocked (some (mergeEntry current b)) = false := by
  simp [isLocked, mergeEntry]

/-- C10: reconciling the same booking twice in sequence never duplicates its
audit line.  (1) merging the same booking against its own merge result
leaves `bookingSource` unchanged; (2) the prior trail is always still
contained after a merge; (3) against an absent record the line appears
exactly once; (4) running `updateFirebase` twice on the same single booking,
the second run starting from the store the first produced, leaves a record
whose `bookingSource` is the first run's and contains the line exactly
once. -/
theorem c10_audit_append_idempotent :
    (∀ (current : Option LocationRecord) (b : Booking),
      (mergeEntry (some (mergeEntry current b)) b).bookingSource
        = (mergeEntry current b).bookingSource) ∧
    (∀ (c : LocationRecord) (b : Booking),
      strContains (mergeEntry (some c) b).bookingSource c.bookingSource = true) ∧
    (∀ b : Booking,
      countOccurL (mergeEntry none b).bookingSource.data (sourceInfo b).data = 1) ∧
    (∀ b : Booking,
      ∃ r : LocationRecord,
        lookupKey (applyUpdates (applyUpdates [] (updateFirebase [] [b]).1)
            (updateFirebase (applyUpdates [] (updateFirebase [] [b]).1) [b]).1)
          b.date = some r ∧
        r.bookingSource = (mergeEntry none b).bookingSource ∧
        countOccurL r.bookingSource.data (sourceInfo b).data = 1) := by
  refine ⟨mergeEntry_bookingSource_idem, ?_, ?_, ?_⟩
  · intro c b
    simp only [mergeEntry]
    exact combineSource_contains_prior _ _
  · intro b
    rw [mergeEntry_none_bookingSource]
    exact countOccurL_self (sourceInfo_ne_empty b)
  · intro b
    have hrun1 : updateFirebase [] [b] = ([(b.date, mergeEntry none b)], ⟨1, 0, 0⟩) := by
      show updateStep [] ([], ⟨0, 0, 0⟩) b = _
      unfold updateStep
      simp [lookupKey, isLocked, hasNew, setKey]
    have hstore1 : applyUpdates [] (updateFirebase [] [b]).1
        = [(b.date, mergeEntry none b)] := by
      rw [hrun1]
      rfl
    have hlook1 : lookupKey [(b.date, mergeEntry none b)] b.date
        = some (mergeEntry none b) := by
      simp [lookupKey]
    cases hn : hasNew (some (mergeEntry none b))
        (mergeEntry (some (mergeEntry none b)) b) with
    | true =>
      have hrun2 : updateFirebase [(b.date, mergeEntry none b)] [b]
          = ([(b.date, mergeEntry (some (mergeEntry none b)) b)], ⟨0, 1, 0⟩) := by
        show updateStep [(b.date, mergeEntry none b)] ([], ⟨0, 0, 0⟩) b = _
        unfold updateStep
        rw [hlook1]
        rw [if_neg (by rw [mergeEntry_not_locked]; simp), if_pos hn]
        rfl
      refine ⟨mergeEntry (some (mergeEntry none b)) b, ?_, ?_, ?_⟩
      · rw [hstore1, hrun2]
        show lookupKey (setKey [(b.date, mergeEntry none b)] b.date
          (mergeEntry (some (mergeEntry none b)) b)) b.date = _
        rw [lookupKey_setKey_self]
      · exact mergeEntry_bookingSource_idem none b
      · rw [mergeEntry_bookingSource_idem none b, mergeEntry_none_bookingSource]
        exact countOccurL_self (sourceInfo_ne_empty b)
    | false =>
      have hrun2 : updateFirebase [(b.date, mergeEntry none b)] [b]
          = ([], ⟨0, 0, 1⟩) := by
        show updateStep [(b.date, mergeEntry none b)] ([], ⟨0, 0, 0⟩) b = _
        unfold updateStep
        rw [hlook1]
        rw [if_neg (by rw [mergeEntry_not_locked]; simp), if_neg (by rw [hn]; simp)]
      refine ⟨mergeEntry none b, ?_, rfl, ?_⟩
      · rw [hstore1, hrun2]
        exact hlook1
      · rw [mergeEntry_none_bookingSource]
        exact countOccurL_self (sourceInfo_ne_empty b)

end MidnightTracker
